import Mathlib

/-!
Formal model of the StreamingContentAnalyzer dashboard (`src/app.py`).

The program is a Streamlit script over a pandas DataFrame.  We embed the
tabular data model shallowly:

* a `Record` is one row of the Content Table (columns `Type`, `Year`,
  `Genre(s)`, `Rating (Out of 5)`);
* a table is a `List Record` (row order is significant);
* pandas boolean-mask filtering becomes `List.filter`;
* Python string operations (`in` as substring test, `str.split(', ')`)
  are modelled by executable functions on `List Char`;
* the `pd.DataFrame()` object returned after a load failure has no
  columns at all, which we model with an explicit `hasContentColumns`
  flag on `DataFrame`; column access on a frame without the column
  raises `KeyError`, which we model with `Except`.

All definitions are structurally recursive so that concrete instances
evaluate by `decide` / `rfl`.
-/

/-! ### Basic string machinery (model of Python `str` operations) -/

/-- Boolean test that `p` is a prefix of `l` (character lists). -/
def isPrefixList : List Char → List Char → Bool
  | [], _ => true
  | _ :: _, [] => false
  | a :: as, b :: bs => a == b && isPrefixList as bs

/-- Model of Python's `needle in hay` substring containment on strings. -/
def containsSubstr (needle : List Char) : List Char → Bool
  | [] => needle.isEmpty
  | c :: t => isPrefixList needle (c :: t) || containsSubstr needle t

/-- Python `needle in hay` for `String`s, as used in `apply_filters`
(`lambda x: any(genre in x for genre in genre_filter)`, src/app.py line 75). -/
def pyIn (needle hay : String) : Bool := containsSubstr needle.data hay.data

/-- Splitting a character list on the two-character separator `", "`,
leftmost-first and non-overlapping — the semantics of Python's
`x.split(', ')` used at src/app.py lines 52 and 166. -/
def splitCS : List Char → List (List Char)
  | ',' :: ' ' :: rest => [] :: splitCS rest
  | c :: rest =>
    match splitCS rest with
    | [] => [[c]]
    | t :: ts => (c :: t) :: ts
  | [] => [[]]

/-- The genre tokens of a `Genre(s)` field: Python `x.split(', ')`. -/
def splitGenres (s : String) : List String := (splitCS s.data).map String.mk

/-! ### Data model -/

/-- One row of the Content Table.  Columns as in `data.csv`:
`Type`, `Year` (integer after coercion), `Genre(s)` (comma-separated
genre names in one string), `Rating (Out of 5)` (numeric, modelled as `Rat`). -/
structure Record where
  type : String
  year : Int
  genres : String
  rating : Rat
deriving DecidableEq

/-! ### Filter engine (src/app.py lines 69–81) -/

/-- Model of `Series.between(lo, hi)` — inclusive at both ends
(src/app.py line 71). -/
def betweenB (lo hi x : Int) : Bool := decide (lo ≤ x) && decide (x ≤ hi)

/-- `apply_filters` (src/app.py lines 69–79).  The Streamlit globals
`type_filter`, `year_range`, `genre_filter` become parameters.
Step 1: `df[df["Type"].isin(type_filter)]`;
step 2: `filtered["Year"].between(year_range[0], year_range[1])`;
step 3: only `if genre_filter:` (non-empty list is truthy), keep rows where
`any(genre in x for genre in genre_filter)` — a Python substring test. -/
def apply_filters (df : List Record) (type_filter : List String)
    (year_range : Int × Int) (genre_filter : List String) : List Record :=
  let f1 := df.filter (fun r => type_filter.contains r.type)
  let f2 := f1.filter (fun r => betweenB year_range.1 year_range.2 r.year)
  if genre_filter.isEmpty then f2
  else f2.filter (fun r => genre_filter.any (fun g => pyIn g r.genres))

/-- The conjunction of the three row predicates of `apply_filters`. -/
def keepPred (type_filter : List String) (year_range : Int × Int)
    (genre_filter : List String) (r : Record) : Bool :=
  type_filter.contains r.type &&
  betweenB year_range.1 year_range.2 r.year &&
  (genre_filter.isEmpty || genre_filter.any (fun g => pyIn g r.genres))

theorem apply_filters_eq (df : List Record) (tf : List String)
    (yr : Int × Int) (gf : List String) :
    apply_filters df tf yr gf = df.filter (keepPred tf yr gf) := by
  unfold apply_filters
  by_cases h : gf.isEmpty
  · simp only [h, if_pos, List.filter_filter]
    apply List.filter_congr
    intro a _
    simp [keepPred, h, Bool.and_comm]
  · simp only [h, if_neg, List.filter_filter, Bool.not_eq_true]
    apply List.filter_congr
    intro a _
    simp only [keepPred, h]
    cases tf.contains a.type <;> cases betweenB yr.1 yr.2 a.year <;>
      cases gf.any (fun g => pyIn g a.genres) <;> rfl

/-! ### Decimal digits: rendering and parsing

Used to model the textual form of `Year` (integer) and
`Rating (Out of 5)` (decimal) cells in CSV input and output. -/

/-- The character for a single decimal digit. -/
def digitChar : Nat → Char
  | 0 => '0' | 1 => '1' | 2 => '2' | 3 => '3' | 4 => '4'
  | 5 => '5' | 6 => '6' | 7 => '7' | 8 => '8' | _ => '9'

/-- Numeric value of a digit character. -/
def digitVal (c : Char) : Nat := c.toNat - 48

/-- Is `c` one of `'0'`–`'9'`? -/
def isDigitChar (c : Char) : Bool := decide ('0' ≤ c) && decide (c ≤ '9')

/-- Fuel-driven rendering of a natural number in decimal (most significant
digit first); `fuel > n` suffices. -/
def natToDigitsAux : Nat → Nat → List Char
  | 0, _ => []
  | fuel + 1, n =>
    if n < 10 then [digitChar n]
    else natToDigitsAux fuel (n / 10) ++ [digitChar (n % 10)]

/-- Decimal rendering of a natural number. -/
def natToDigits (n : Nat) : List Char := natToDigitsAux (n + 1) n

/-- Exactly `k` decimal digits of `n % 10^k`, zero-padded. -/
def padDigits : Nat → Nat → List Char
  | 0, _ => []
  | k + 1, n => padDigits k (n / 10) ++ [digitChar (n % 10)]

/-- Value of a digit string (no validation). -/
def parseDigitsVal (ds : List Char) : Nat := ds.foldl (fun a c => 10 * a + digitVal c) 0

/-- Parse a non-empty all-digit string as a natural number. -/
def parseNatChars (ds : List Char) : Option Nat :=
  if !ds.isEmpty && ds.all isDigitChar then some (parseDigitsVal ds) else none

/-- Parse an optionally `'-'`-signed decimal integer. -/
def parseIntChars : List Char → Option Int
  | [] => none
  | c :: ds =>
    if c = '-' then (parseNatChars ds).map (fun n : Nat => -(n : Int))
    else (parseNatChars (c :: ds)).map (fun n : Nat => (n : Int))

/-- Decimal rendering of an integer. -/
def intToChars (i : Int) : List Char :=
  if i < 0 then '-' :: natToDigits i.natAbs else natToDigits i.toNat

/-! ### The loaded-frame model

`pd.DataFrame()` — the value `load_data` returns after a failure — has no
columns at all; accessing a missing column raises `KeyError`.  We record
whether the content columns exist with a flag. -/

/-- A pandas DataFrame restricted to this application's schema.  When
`hasContentColumns` is `false` the frame is the column-less `pd.DataFrame()`
and every column access raises. -/
structure DataFrame where
  hasContentColumns : Bool
  rows : List Record
deriving DecidableEq

/-- `pd.DataFrame()`: no columns, no rows (src/app.py line 36). -/
def emptyFrame : DataFrame := { hasContentColumns := false, rows := [] }

/-! ### Data loader (src/app.py lines 28–36)

The raw CSV row still carries `Year` as text; `df['Year'].astype(int)`
coerces it.  `src = none` models `pd.read_csv` itself raising (missing
file, unreadable encoding).  Any exception is caught by the `except`
block, which calls `st.error` and returns `pd.DataFrame()`. -/

/-- A raw CSV row before the `Year` coercion. -/
structure RawRow where
  type : String
  yearRaw : String
  genres : String
  rating : Rat
deriving DecidableEq

/-- Model of the `Year` cell coercion performed by
`df['Year'].astype(int)`: succeeds exactly on (signed) decimal integer
literals. -/
def pyYearToInt (s : String) : Option Int := parseIntChars s.data

/-- Coerce every row's `Year`; one bad cell fails the whole column
(`astype` raises), so the result is all-or-nothing. -/
def coerceYears : List RawRow → Option (List Record)
  | [] => some []
  | r :: rs =>
    match pyYearToInt r.yearRaw, coerceYears rs with
    | some y, some t =>
      some ({ type := r.type, year := y, genres := r.genres, rating := r.rating } :: t)
    | _, _ => none

/-- `load_data` (src/app.py lines 29–36).  Returns the resulting frame
together with a flag recording whether `st.error` was called.  On any
failure the caller receives `pd.DataFrame()` (empty, no columns); the
function never propagates an exception. -/
def load_data (src : Option (List RawRow)) : DataFrame × Bool :=
  match src with
  | none => (emptyFrame, true)
  | some rows =>
    match coerceYears rows with
    | none => (emptyFrame, true)
    | some t => ({ hasContentColumns := true, rows := t }, false)

/-! ### Filter option deriver (src/app.py lines 45–66) -/

/-- First-occurrence deduplication, the semantics of pandas
`Series.unique` (order of first appearance). -/
def uniqueAux {α : Type} [DecidableEq α] (seen : List α) : List α → List α
  | [] => []
  | x :: xs => if x ∈ seen then uniqueAux seen xs else x :: uniqueAux (x :: seen) xs

/-- `Series.unique`: distinct values in order of first appearance. -/
def uniqueFirst {α : Type} [DecidableEq α] (l : List α) : List α := uniqueAux [] l

/-- `df["Type"].unique()` (src/app.py line 47): raises `KeyError` on the
column-less frame. -/
def typeOptions (df : DataFrame) : Except String (List String) :=
  if df.hasContentColumns then .ok (uniqueFirst (df.rows.map Record.type))
  else .error "KeyError: Type"

/-- `df['Genre(s)'].str.split(', ', expand=True).stack().unique()`
(src/app.py line 52): flattened genre tokens in row-major order,
deduplicated; raises `KeyError` on the column-less frame. -/
def genre_options (df : DataFrame) : Except String (List String) :=
  if df.hasContentColumns then
    .ok (uniqueFirst (df.rows.flatMap (fun r => splitGenres r.genres)))
  else .error "KeyError: Genre(s)"

/-- `int(df["Year"].min())`, `int(df["Year"].max())` (src/app.py
lines 62–63): `KeyError` on the column-less frame, and on a frame with
columns but no rows `min()` is `NaN`, so `int(...)` raises `ValueError`. -/
def yearBounds (df : DataFrame) : Except String (Int × Int) :=
  if df.hasContentColumns then
    match df.rows with
    | [] => .error "ValueError: cannot convert float NaN to integer"
    | r :: rs =>
      .ok ((rs.map Record.year).foldl min r.year, (rs.map Record.year).foldl max r.year)
  else .error "KeyError: Year"

/-! ### Aggregation views (src/app.py lines 87–194) -/

/-- The headline metrics of the Key Metrics block (src/app.py lines 90–98). -/
structure Metrics where
  totalContent : Nat
  averageRating : Rat
  movies : Nat
  tvShows : Nat
deriving DecidableEq

/-- `filtered_df['Rating (Out of 5)'].mean()` as an exact rational. -/
def meanRating (subset : List Record) : Rat :=
  (subset.map Record.rating).sum / (subset.length : Rat)

/-- The four `st.metric` values (src/app.py lines 92–98). -/
def computeMetrics (subset : List Record) : Metrics :=
  { totalContent := subset.length,
    averageRating := meanRating subset,
    movies := (subset.filter (fun r => r.type == "Movie")).length,
    tvShows := (subset.filter (fun r => r.type == "TV Show")).length }

/-- Insertion into an ascending `Int` list. -/
def insertAsc (x : Int) : List Int → List Int
  | [] => [x]
  | y :: ys => if x ≤ y then x :: y :: ys else y :: insertAsc x ys

/-- Ascending insertion sort (pandas `groupby` sorts group keys). -/
def sortAsc (l : List Int) : List Int := l.foldr insertAsc []

/-- `filtered_df.groupby('Year').agg(Average_Rating=..., Count=...)`
(src/app.py lines 136–139): one `(Year, mean Rating, count)` triple per
distinct year, ascending by year.  Computed unconditionally — the source
has no emptiness guard around this block. -/
def yearly_data (subset : List Record) : List (Int × Rat × Nat) :=
  (sortAsc (uniqueFirst (subset.map Record.year))).map (fun y =>
    let grp := subset.filter (fun r => r.year == y)
    (y, meanRating grp, grp.length))

/-- Number of occurrences of token `g` in a token list. -/
def countTok (g : String) : List String → Nat
  | [] => 0
  | x :: xs => (if x = g then 1 else 0) + countTok g xs

/-- Insert a `(genre, count)` pair into a descending-by-count list,
after any pair of equal count (stable). -/
def insertDesc (p : String × Nat) : List (String × Nat) → List (String × Nat)
  | [] => [p]
  | q :: qs => if q.2 < p.2 then p :: q :: qs else q :: insertDesc p qs

/-- Descending-by-count insertion sort. -/
def sortDescCounts (l : List (String × Nat)) : List (String × Nat) :=
  l.foldl (fun acc p => insertDesc p acc) []

/-- The flattened genre token list of a subset — the stacked result of
`filtered_df['Genre(s)'].str.split(', ', expand=True).stack()`
(src/app.py line 166): one entry per genre listed per record, in row-major
order. -/
def genreTokens (subset : List Record) : List String :=
  subset.flatMap (fun r => splitGenres r.genres)

/-- The genre rollup (src/app.py lines 166–168): split every `Genre(s)`
field on `", "`, flatten, `value_counts()` — occurrences per distinct
token, ordered by descending count. -/
def genre_counts (subset : List Record) : List (String × Nat) :=
  sortDescCounts ((uniqueFirst (genreTokens subset)).map
    (fun g => (g, countTok g (genreTokens subset))))

/-- Which aggregation views one render pass computes, and their values.
The `...Computed` flags mirror the control flow of src/app.py:
the Key Metrics block is guarded by `if not filtered_df.empty` (line 89),
the genre rollup by `if not filtered_df.empty` (line 165), but the
`yearly_data` block (line 136) runs unconditionally. -/
structure RenderedViews where
  metricsComputed : Bool
  metrics : Option Metrics
  yearlyComputed : Bool
  yearly : List (Int × Rat × Nat)
  genreComputed : Bool
  genreCountsFull : Option (List (String × Nat))
  genreTop : Option (List (String × Nat))
deriving DecidableEq

/-- One render pass over the filtered subset (src/app.py lines 87–194).
`genreTop` is the `genre_counts.head(10)` slice fed to the bar chart
(line 173); `genreCountsFull` feeds the treemap (line 186). -/
def renderViews (subset : List Record) : RenderedViews :=
  { metricsComputed := !subset.isEmpty,
    metrics := if subset.isEmpty then none else some (computeMetrics subset),
    yearlyComputed := true,
    yearly := yearly_data subset,
    genreComputed := !subset.isEmpty,
    genreCountsFull := if subset.isEmpty then none else some (genre_counts subset),
    genreTop := if subset.isEmpty then none else some ((genre_counts subset).take 10) }

/-! ### CSV export (src/app.py lines 202–204) and its re-parse

`convert_df` is `df.to_csv(index=False).encode('utf-8')`: a header row,
then one line per record, fields joined by `','`, records terminated by
`'\n'`, minimal quoting (a field is quoted exactly when it contains the
delimiter, the quote character or a line break; quotes are doubled).
The spec's round-trip property talks about re-parsing the exported
bytes; the repository itself contains no parser for them, so the parser
below is the standard CSV reading of those bytes. -/

/-- Minimal quoting: does this field need quotes? -/
def needsQuote (f : List Char) : Bool :=
  f.any (fun c => c == ',' || c == '"' || c == '\n' || c == '\r')

/-- Double every quote character. -/
def escQuotes : List Char → List Char
  | [] => []
  | c :: cs => if c = '"' then '"' :: '"' :: escQuotes cs else c :: escQuotes cs

/-- Encode one CSV field with minimal quoting. -/
def encodeField (f : List Char) : List Char :=
  if needsQuote f then '"' :: (escQuotes f ++ ['"']) else f

/-- Join the encoded fields of one record with `','`. -/
def encodeFields : List (List Char) → List Char
  | [] => []
  | [f] => encodeField f
  | f :: fs => encodeField f ++ ',' :: encodeFields fs

/-- Encode a sequence of records, each terminated by `'\n'`. -/
def encodeCsv : List (List (List Char)) → List Char
  | [] => []
  | r :: rs => encodeFields r ++ '\n' :: encodeCsv rs

/-- `q` has a finite decimal expansion (true of every Python float, whose
denominator is a power of two): its denominator divides a power of ten,
and `10 ^ q.den` is always a large enough one. -/
def finiteDecimal (q : Rat) : Prop := q.den ∣ 10 ^ q.den

instance (q : Rat) : Decidable (finiteDecimal q) :=
  inferInstanceAs (Decidable (_ ∣ _))

/-- The numerator of `q` scaled to the denominator `10 ^ q.den`
(equals `q * 10 ^ q.den` when `q` is a non-negative finite decimal). -/
def scaledNum (q : Rat) : Nat := q.num.toNat * (10 ^ q.den / q.den)

/-- Decimal rendering of a non-negative finite-decimal rational:
integer part, `'.'`, then `q.den` fractional digits. -/
def ratPosToChars (q : Rat) : List Char :=
  natToDigits (scaledNum q / 10 ^ q.den) ++
    '.' :: padDigits q.den (scaledNum q % 10 ^ q.den)

/-- Decimal rendering of a finite-decimal rational (the textual form a
float takes in the exported CSV). -/
def ratToChars (q : Rat) : List Char :=
  if q < 0 then '-' :: ratPosToChars (-q) else ratPosToChars q

/-- Split a character list at the first `'.'`. -/
def splitAtDot : List Char → (List Char × Option (List Char))
  | [] => ([], none)
  | c :: rest =>
    if c = '.' then ([], some rest)
    else
      let (a, b) := splitAtDot rest
      (c :: a, b)

/-- Parse an unsigned decimal, optionally with a fractional part; the
value of `i.f` with `k` fractional digits is `(i * 10^k + f) / 10^k`. -/
def parseRatPosChars (cs : List Char) : Option Rat :=
  match splitAtDot cs with
  | (ip, some fp) =>
    match parseNatChars ip, parseNatChars fp with
    | some i, some f => some (mkRat (i * 10 ^ fp.length + f) (10 ^ fp.length))
    | _, _ => none
  | (ip, none) => (parseNatChars ip).map (fun i => mkRat i 1)

/-- Parse an optionally `'-'`-signed decimal number. -/
def parseRatChars : List Char → Option Rat
  | [] => none
  | c :: cs =>
    if c = '-' then (parseRatPosChars cs).map Rat.neg
    else parseRatPosChars (c :: cs)

/-- The header row written by `to_csv`: source column order. -/
def csvHeader : List (List Char) :=
  ["Type".data, "Year".data, "Genre(s)".data, "Rating (Out of 5)".data]

/-- One record as a row of CSV field strings, columns in source order. -/
def toCsvRow (r : Record) : List (List Char) :=
  [r.type.data, intToChars r.year, r.genres.data, ratToChars r.rating]

/-- `convert_df` (src/app.py lines 203–204):
`df.to_csv(index=False).encode('utf-8')` — header row included, no index
column, minimal quoting. -/
def convert_df (subset : List Record) : List Char :=
  encodeCsv (csvHeader :: subset.map toCsvRow)

/-- Consume a quoted field body after its opening quote; a doubled quote
is a literal quote, a single one closes the field. -/
def parseQuoted : List Char → (List Char × List Char)
  | [] => ([], [])
  | c :: rest =>
    if c = '"' then
      match rest with
      | [] => ([], [])
      | c2 :: rest2 =>
        if c2 = '"' then
          let (f, r) := parseQuoted rest2
          ('"' :: f, r)
        else ([], rest)
    else
      let (f, r) := parseQuoted rest
      (c :: f, r)

/-- Consume an unquoted field: everything up to `','` or `'\n'`. -/
def parseUnquoted : List Char → (List Char × List Char)
  | [] => ([], [])
  | c :: rest =>
    if c = ',' || c = '\n' then ([], c :: rest)
    else
      let (f, r) := parseUnquoted rest
      (c :: f, r)

/-- Consume one CSV field; the rest starts with its terminator. -/
def parseField : List Char → (List Char × List Char)
  | [] => ([], [])
  | c :: rest => if c = '"' then parseQuoted rest else parseUnquoted (c :: rest)

/-- Consume one CSV record (its `'\n'` terminator included).  Fuel bounds
the number of fields; any `fuel > number of fields` is enough. -/
def parseRecordCsv : Nat → List Char → (List (List Char) × List Char)
  | 0, s => ([], s)
  | fuel + 1, s =>
    let (f, r) := parseField s
    match r with
    | [] => ([f], [])
    | c :: r2 =>
      if c = ',' then
        let (fs, r3) := parseRecordCsv fuel r2
        (f :: fs, r3)
      else if c = '\n' then ([f], r2)
      else ([f], c :: r2)

/-- Consume records until the input is exhausted. -/
def parseCsvRows : Nat → List Char → List (List (List Char))
  | 0, _ => []
  | fuel + 1, s =>
    match s with
    | [] => []
    | c :: rest =>
      let (r, rest2) := parseRecordCsv ((c :: rest).length + 1) (c :: rest)
      r :: parseCsvRows fuel rest2

/-- Parse CSV bytes into rows of fields. -/
def parseCsvAll (s : List Char) : List (List (List Char)) :=
  parseCsvRows (s.length + 1) s

/-- Rebuild a `Record` from one parsed CSV row: `Year` coerced back to
integer, `Rating` back to a number. -/
def ofCsvRow : List (List Char) → Option Record
  | [t, y, g, rt] =>
    match parseIntChars y, parseRatChars rt with
    | some yy, some rr =>
      some { type := String.mk t, year := yy, genres := String.mk g, rating := rr }
    | _, _ => none
  | _ => none

/-- Rebuild all records; any malformed row fails the parse. -/
def ofCsvRows : List (List (List Char)) → Option (List Record)
  | [] => some []
  | r :: rs =>
    match ofCsvRow r, ofCsvRows rs with
    | some a, some b => some (a :: b)
    | _, _ => none

/-- Modelled from the spec: re-parsing the exported CSV bytes (the
repository only serializes, via `convert_df`; the spec's §8 round-trip
property re-reads them).  Standard CSV semantics: header row first,
then one record per line, `Year`/`Rating` coerced back to numbers. -/
def parse_csv (bytes : List Char) : Option (List Record) :=
  match parseCsvAll bytes with
  | hdr :: rows => if hdr = csvHeader then ofCsvRows rows else none
  | [] => none

/-! ### Lemmas: substring containment -/

/-- `needle` occurs contiguously inside `hay` (mathematical statement of
Python's `needle in hay`). -/
def isSubstringOf (needle hay : String) : Prop :=
  ∃ pre post, hay.data = pre ++ needle.data ++ post

theorem isPrefixList_iff (p : List Char) : ∀ l : List Char,
    (isPrefixList p l = true ↔ ∃ t, l = p ++ t) := by
  induction p with
  | nil =>
    intro l
    simp [isPrefixList]
  | cons a as ih =>
    intro l
    cases l with
    | nil =>
      simp [isPrefixList]
    | cons b bs =>
      simp only [isPrefixList, Bool.and_eq_true, beq_iff_eq, ih bs, List.cons_append,
        List.cons.injEq]
      constructor
      · rintro ⟨rfl, t, rfl⟩
        exact ⟨t, rfl, rfl⟩
      · rintro ⟨t, rfl, rfl⟩
        exact ⟨rfl, t, rfl⟩

theorem containsSubstr_iff (n : List Char) : ∀ l : List Char,
    (containsSubstr n l = true ↔ ∃ pre post, l = pre ++ n ++ post) := by
  intro l
  induction l with
  | nil =>
    simp only [containsSubstr, List.isEmpty_iff]
    constructor
    · rintro rfl
      exact ⟨[], [], rfl⟩
    · rintro ⟨pre, post, h⟩
      rcases List.append_eq_nil.mp h.symm with ⟨h1, h2⟩
      exact (List.append_eq_nil.mp h1).2
  | cons c t ih =>
    simp only [containsSubstr, Bool.or_eq_true, isPrefixList_iff, ih]
    constructor
    · rintro (⟨r, hr⟩ | ⟨pre, post, h⟩)
      · exact ⟨[], r, by simp [hr]⟩
      · exact ⟨c :: pre, post, by simp [h]⟩
    · rintro ⟨pre, post, h⟩
      cases pre with
      | nil =>
        exact Or.inl ⟨post, by simpa using h⟩
      | cons d pre' =>
        simp only [List.cons_append, List.cons.injEq] at h
        exact Or.inr ⟨pre', post, h.2⟩

theorem pyIn_iff (needle hay : String) :
    pyIn needle hay = true ↔ isSubstringOf needle hay :=
  containsSubstr_iff needle.data hay.data

/-! ### Claims about the filter engine -/

theorem mem_apply_filters (df : List Record) (tf : List String)
    (yr : Int × Int) (gf : List String) (r : Record) :
    r ∈ apply_filters df tf yr gf ↔ r ∈ df ∧ keepPred tf yr gf r = true := by
  rw [apply_filters_eq, List.mem_filter]

theorem keepPred_nonempty_genres (tf : List String) (yr : Int × Int)
    (gf : List String) (hgf : gf ≠ []) (r : Record) :
    keepPred tf yr gf r = true ↔
      keepPred tf yr [] r = true ∧ ∃ g ∈ gf, isSubstringOf g r.genres := by
  have hge : gf.isEmpty = false := by
    cases gf with
    | nil => exact absurd rfl hgf
    | cons a l => rfl
  simp only [keepPred, hge, List.isEmpty_nil, Bool.or_true, Bool.and_true,
    Bool.false_or, Bool.and_eq_true, List.any_eq_true, pyIn_iff]
  tauto

/-- C1 (amended): with a non-empty `selectedGenres`, the filter engine keeps a
record iff it passes the Type and Year filters and at least one selected genre
occurs as a *substring* of the record's whole `Genre(s)` field; the spec's two
examples hold (`"Comedy, Drama"` kept and `"Drama, Action"` dropped under
selection `{"Comedy"}`), but matching is not exact token equality. -/
theorem genre_filter_substring_semantics (df : List Record) (tf : List String)
    (yr : Int × Int) (gf : List String) (hgf : gf ≠ []) :
    (∀ r : Record, r ∈ apply_filters df tf yr gf ↔
        r ∈ apply_filters df tf yr [] ∧ ∃ g ∈ gf, isSubstringOf g r.genres) ∧
    apply_filters [⟨"Movie", 2020, "Comedy, Drama", mkRat 4 1⟩]
        ["Movie"] (2000, 2025) ["Comedy"]
      = [⟨"Movie", 2020, "Comedy, Drama", mkRat 4 1⟩] ∧
    apply_filters [⟨"Movie", 2020, "Drama, Action", mkRat 4 1⟩]
        ["Movie"] (2000, 2025) ["Comedy"]
      = [] := by
  refine ⟨fun r => ?_, by decide, by decide⟩
  rw [mem_apply_filters, mem_apply_filters, keepPred_nonempty_genres tf yr gf hgf r]
  tauto

/-- Witness for `genre_filter_substring_semantics`: the two concrete examples
of the claim, extracted from the theorem with the non-emptiness hypothesis
discharged. -/
theorem genre_filter_substring_semantics_witness :
    apply_filters [⟨"Movie", 2020, "Comedy, Drama", mkRat 4 1⟩]
        ["Movie"] (2000, 2025) ["Comedy"]
      = [⟨"Movie", 2020, "Comedy, Drama", mkRat 4 1⟩] ∧
    apply_filters [⟨"Movie", 2020, "Drama, Action", mkRat 4 1⟩]
        ["Movie"] (2000, 2025) ["Comedy"]
      = [] :=
  ⟨(genre_filter_substring_semantics
      [⟨"Movie", 2020, "Comedy, Drama", mkRat 4 1⟩] ["Movie"] (2000, 2025) ["Comedy"]
      (by decide)).2.1,
    (genre_filter_substring_semantics
      [⟨"Movie", 2020, "Comedy, Drama", mkRat 4 1⟩] ["Movie"] (2000, 2025) ["Comedy"]
      (by decide)).2.2⟩

/-- C1 counterexample: under selection `{"Drama"}` the record whose
`Genre(s)` field is `"Dramatic"` is kept by `apply_filters` even though no
token of the split field equals `"Drama"` — a record *is* kept merely because
a selected genre occurs as a substring of a longer token. -/
theorem genre_filter_not_token_exact :
    apply_filters [⟨"Movie", 2020, "Dramatic", mkRat 4 1⟩]
        ["Movie"] (2020, 2020) ["Drama"]
      = [⟨"Movie", 2020, "Dramatic", mkRat 4 1⟩] ∧
    ∀ t ∈ splitGenres "Dramatic", t ≠ "Drama" := by decide

/-- C4: an empty Type selection matches nothing — `apply_filters` returns the
empty subset for every table, every genre selection and every year range. -/
theorem apply_filters_empty_type_selection (df : List Record)
    (yr : Int × Int) (gf : List String) :
    apply_filters df [] yr gf = [] := by
  rw [apply_filters_eq]
  rw [List.filter_eq_nil_iff]
  intro a _
  simp [keepPred]

/-- C5: the filtered subset is a sub-sequence of the table (same rows, same
relative order), and filtering is idempotent. -/
theorem apply_filters_sublist_idempotent (df : List Record) (tf : List String)
    (yr : Int × Int) (gf : List String) :
    (apply_filters df tf yr gf).Sublist df ∧
    apply_filters (apply_filters df tf yr gf) tf yr gf = apply_filters df tf yr gf := by
  constructor
  · rw [apply_filters_eq]
    exact List.filter_sublist df
  · simp only [apply_filters_eq, List.filter_filter]
    exact List.filter_congr (fun a _ => Bool.and_self (keepPred tf yr gf a))

/-- C6: the year predicate used by `apply_filters` is inclusive at both ends:
for a well-formed range it keeps a record whose Year equals either bound, and
it keeps a record exactly when `minYear ≤ Year ≤ maxYear`. -/
theorem year_filter_inclusive (lo hi : Int) (r : Record) (hm : lo ≤ hi) :
    ((r.year = lo ∨ r.year = hi) → betweenB lo hi r.year = true) ∧
    (betweenB lo hi r.year = true ↔ lo ≤ r.year ∧ r.year ≤ hi) := by
  constructor
  · rintro (h | h) <;> rw [h] <;> simp [betweenB, hm]
  · simp [betweenB]

/-- Witness for `year_filter_inclusive`: a record with Year exactly at the
lower bound of `[2000, 2005]` is kept, with all hypotheses discharged. -/
theorem year_filter_inclusive_witness :
    betweenB 2000 2005 (Record.mk "Movie" 2000 "Comedy" (mkRat 4 1)).year = true ∧
    (betweenB 2000 2005 (Record.mk "Movie" 2000 "Comedy" (mkRat 4 1)).year = true ↔
      2000 ≤ (Record.mk "Movie" 2000 "Comedy" (mkRat 4 1)).year ∧
        (Record.mk "Movie" 2000 "Comedy" (mkRat 4 1)).year ≤ 2005) :=
  ⟨(year_filter_inclusive 2000 2005 (Record.mk "Movie" 2000 "Comedy" (mkRat 4 1))
      (by decide)).1 (Or.inl rfl),
    (year_filter_inclusive 2000 2005 (Record.mk "Movie" 2000 "Comedy" (mkRat 4 1))
      (by decide)).2⟩

/-- C10: the genre filter is monotone in the genre selection — enlarging a
non-empty selection only ever keeps more records. -/
theorem genre_filter_monotone (df : List Record) (tf : List String)
    (yr : Int × Int) (G G' : List String) (hG : G ≠ []) (hG' : G' ≠ [])
    (hsub : ∀ g ∈ G, g ∈ G') :
    ∀ r ∈ apply_filters df tf yr G, r ∈ apply_filters df tf yr G' := by
  intro r hr
  rw [mem_apply_filters] at hr ⊢
  obtain ⟨hdf, hkeep⟩ := hr
  rw [keepPred_nonempty_genres tf yr G hG r] at hkeep
  rw [keepPred_nonempty_genres tf yr G' hG' r]
  obtain ⟨hbase, g, hgG, hgsub⟩ := hkeep
  exact ⟨hdf, hbase, g, hsub g hgG, hgsub⟩

/-- Witness for `genre_filter_monotone`: the concrete record kept under
`{"Comedy"}` is also kept under `{"Comedy", "Drama"}`. -/
theorem genre_filter_monotone_witness :
    Record.mk "Movie" 2020 "Comedy" (mkRat 4 1) ∈
      apply_filters [⟨"Movie", 2020, "Comedy", mkRat 4 1⟩]
        ["Movie"] (2000, 2025) ["Comedy", "Drama"] :=
  genre_filter_monotone [⟨"Movie", 2020, "Comedy", mkRat 4 1⟩] ["Movie"] (2000, 2025)
    ["Comedy"] ["Comedy", "Drama"] (by decide) (by decide) (by decide)
    (Record.mk "Movie" 2020 "Comedy" (mkRat 4 1)) (by decide)

/-! ### Claims about the option deriver and the view guards -/

/-- C2 (code-bug exhibit): on the empty `pd.DataFrame()` returned after a load
failure, no filter option derivation succeeds with empty option sets — every
one raises: `df["Type"]` and `df['Genre(s)']` raise `KeyError` because the
column-less frame has no such columns, and `int(df["Year"].min())` raises even
on an empty frame that does have the columns, because `min()` of no rows is
`NaN`. -/
theorem filter_options_raise_on_empty_frame :
    (load_data none).1 = emptyFrame ∧
    typeOptions (load_data none).1 = Except.error "KeyError: Type" ∧
    genre_options (load_data none).1 = Except.error "KeyError: Genre(s)" ∧
    yearBounds (load_data none).1 = Except.error "KeyError: Year" ∧
    yearBounds { hasContentColumns := true, rows := [] } =
      Except.error "ValueError: cannot convert float NaN to integer" :=
  ⟨rfl, rfl, rfl, rfl, rfl⟩

/-- C3 counterexample: for a filter selection whose filtered subset is empty,
the yearly rollup block is still evaluated (`yearlyComputed = true`) — the
source has no emptiness guard around `yearly_data`, so not every aggregation
view is skipped. -/
theorem yearly_rollup_computed_on_empty_subset :
    apply_filters [⟨"Movie", 2020, "Comedy", mkRat 4 1⟩] [] (2020, 2020) [] = [] ∧
    (renderViews (apply_filters [⟨"Movie", 2020, "Comedy", mkRat 4 1⟩]
        [] (2020, 2020) [])).yearlyComputed = true := by decide

/-- C3 (amended): on an empty filtered subset the headline metrics and the
genre rollup are skipped and replaced by the no-data state, but the yearly
rollup block is evaluated unconditionally — over zero rows it produces the
empty rollup (and hence no per-group mean over zero rows). -/
theorem empty_subset_view_guards (df : List Record) (tf : List String)
    (yr : Int × Int) (gf : List String)
    (h : apply_filters df tf yr gf = []) :
    (renderViews (apply_filters df tf yr gf)).metricsComputed = false ∧
    (renderViews (apply_filters df tf yr gf)).metrics = none ∧
    (renderViews (apply_filters df tf yr gf)).genreComputed = false ∧
    (renderViews (apply_filters df tf yr gf)).genreCountsFull = none ∧
    (renderViews (apply_filters df tf yr gf)).genreTop = none ∧
    (renderViews (apply_filters df tf yr gf)).yearlyComputed = true ∧
    (renderViews (apply_filters df tf yr gf)).yearly = [] := by
  rw [h]
  exact ⟨rfl, rfl, rfl, rfl, rfl, rfl, rfl⟩

/-- Witness for `empty_subset_view_guards` on a selection that filters a
one-row table down to nothing. -/
theorem empty_subset_view_guards_witness :
    (renderViews (apply_filters [⟨"Movie", 2020, "Comedy", mkRat 4 1⟩]
        [] (2020, 2020) [])).metricsComputed = false ∧
    (renderViews (apply_filters [⟨"Movie", 2020, "Comedy", mkRat 4 1⟩]
        [] (2020, 2020) [])).metrics = none ∧
    (renderViews (apply_filters [⟨"Movie", 2020, "Comedy", mkRat 4 1⟩]
        [] (2020, 2020) [])).genreComputed = false ∧
    (renderViews (apply_filters [⟨"Movie", 2020, "Comedy", mkRat 4 1⟩]
        [] (2020, 2020) [])).genreCountsFull = none ∧
    (renderViews (apply_filters [⟨"Movie", 2020, "Comedy", mkRat 4 1⟩]
        [] (2020, 2020) [])).genreTop = none ∧
    (renderViews (apply_filters [⟨"Movie", 2020, "Comedy", mkRat 4 1⟩]
        [] (2020, 2020) [])).yearlyComputed = true ∧
    (renderViews (apply_filters [⟨"Movie", 2020, "Comedy", mkRat 4 1⟩]
        [] (2020, 2020) [])).yearly = [] :=
  empty_subset_view_guards [⟨"Movie", 2020, "Comedy", mkRat 4 1⟩] [] (2020, 2020) []
    (by decide)

/-! ### Lemmas: first-occurrence deduplication and count sorting -/

theorem mem_uniqueAux {α : Type} [DecidableEq α] (l : List α) :
    ∀ (seen : List α) (a : α), a ∈ uniqueAux seen l ↔ a ∈ l ∧ a ∉ seen := by
  induction l with
  | nil =>
    intro seen a
    simp [uniqueAux]
  | cons x xs ih =>
    intro seen a
    by_cases hx : x ∈ seen
    · rw [uniqueAux, if_pos hx, ih]
      constructor
      · rintro ⟨h1, h2⟩
        exact ⟨List.mem_cons_of_mem x h1, h2⟩
      · rintro ⟨h1, h2⟩
        rcases List.mem_cons.mp h1 with rfl | h1
        · exact absurd hx h2
        · exact ⟨h1, h2⟩
    · rw [uniqueAux, if_neg hx]
      by_cases hax : a = x
      · subst hax
        simp [hx]
      · simp only [List.mem_cons, hax, false_or, ih, List.mem_cons]

theorem nodup_uniqueAux {α : Type} [DecidableEq α] (l : List α) :
    ∀ seen : List α, (uniqueAux seen l).Nodup := by
  induction l with
  | nil =>
    intro seen
    exact List.nodup_nil
  | cons x xs ih =>
    intro seen
    by_cases hx : x ∈ seen
    · rw [uniqueAux, if_pos hx]
      exact ih seen
    · rw [uniqueAux, if_neg hx]
      refine List.Nodup.cons ?_ (ih (x :: seen))
      intro hmem
      exact ((mem_uniqueAux xs (x :: seen) x).mp hmem).2 (List.mem_cons_self x seen)

theorem mem_uniqueFirst {α : Type} [DecidableEq α] (l : List α) (a : α) :
    a ∈ uniqueFirst l ↔ a ∈ l := by
  rw [uniqueFirst, mem_uniqueAux]
  simp

theorem nodup_uniqueFirst {α : Type} [DecidableEq α] (l : List α) :
    (uniqueFirst l).Nodup :=
  nodup_uniqueAux l []

/-- Descending-by-count order on `(genre, count)` pairs. -/
def descByCount (a b : String × Nat) : Prop := b.2 ≤ a.2

theorem insertDesc_perm (p : String × Nat) (l : List (String × Nat)) :
    List.Perm (insertDesc p l) (p :: l) := by
  induction l with
  | nil => exact List.Perm.refl _
  | cons q qs ih =>
    rw [insertDesc]
    by_cases h : q.2 < p.2
    · rw [if_pos h]
    · rw [if_neg h]
      exact (ih.cons q).trans (List.Perm.swap p q qs)

theorem insertDesc_sorted (p : String × Nat) (l : List (String × Nat))
    (hl : l.Pairwise descByCount) : (insertDesc p l).Pairwise descByCount := by
  induction l with
  | nil => simp [insertDesc, List.pairwise_singleton]
  | cons q qs ih =>
    rw [insertDesc]
    rcases List.pairwise_cons.mp hl with ⟨hq, hqs⟩
    by_cases h : q.2 < p.2
    · rw [if_pos h]
      refine List.pairwise_cons.mpr ⟨?_, hl⟩
      intro x hx
      rcases List.mem_cons.mp hx with rfl | hx
      · exact Nat.le_of_lt h
      · exact Nat.le_trans (hq x hx) (Nat.le_of_lt h)
    · rw [if_neg h]
      refine List.pairwise_cons.mpr ⟨?_, ih hqs⟩
      intro x hx
      have hx' : x ∈ p :: qs := (insertDesc_perm p qs).mem_iff.mp hx
      rcases List.mem_cons.mp hx' with rfl | hx'
      · exact Nat.le_of_not_lt h
      · exact hq x hx'

theorem sortFold_perm (l : List (String × Nat)) :
    ∀ acc : List (String × Nat),
      List.Perm (l.foldl (fun acc p => insertDesc p acc) acc) (acc ++ l) := by
  induction l with
  | nil =>
    intro acc
    simp
  | cons p ps ih =>
    intro acc
    have h1 : (p :: ps).foldl (fun acc p => insertDesc p acc) acc
        = ps.foldl (fun acc p => insertDesc p acc) (insertDesc p acc) := rfl
    rw [h1]
    have h2 := ih (insertDesc p acc)
    have h3 : List.Perm (insertDesc p acc ++ ps) ((p :: acc) ++ ps) :=
      (insertDesc_perm p acc).append_right ps
    have h4 : List.Perm ((p :: acc) ++ ps) (acc ++ p :: ps) := by
      rw [List.cons_append]
      exact List.perm_middle.symm
    exact (h2.trans h3).trans h4

theorem sortFold_sorted (l : List (String × Nat)) :
    ∀ acc : List (String × Nat), acc.Pairwise descByCount →
      (l.foldl (fun acc p => insertDesc p acc) acc).Pairwise descByCount := by
  induction l with
  | nil =>
    intro acc hacc
    exact hacc
  | cons p ps ih =>
    intro acc hacc
    exact ih (insertDesc p acc) (insertDesc_sorted p acc hacc)

theorem sortDescCounts_perm (l : List (String × Nat)) :
    List.Perm (sortDescCounts l) l := by
  have h := sortFold_perm l []
  simp only [List.nil_append] at h
  exact h

theorem sortDescCounts_sorted (l : List (String × Nat)) :
    (sortDescCounts l).Pairwise descByCount :=
  sortFold_sorted l [] List.Pairwise.nil

/-! ### Claim C7: the genre rollup -/

/-- C7: for every non-empty filtered subset, the genre rollup counts one
occurrence per genre listed per record (splitting `Genre(s)` on `", "` and
flattening), has one output pair per distinct token, is ordered by descending
count, feeds exactly the top-10 slice to the first display, and on the
two-record subset `["Comedy, Drama", "Comedy"]` yields `Comedy: 2` before
`Drama: 1`. -/
theorem genre_counts_spec (subset : List Record) (hsub : subset ≠ []) :
    (genre_counts subset).Pairwise descByCount ∧
    (∀ p ∈ genre_counts subset, p.2 = countTok p.1 (genreTokens subset)) ∧
    ((genre_counts subset).map Prod.fst).Nodup ∧
    (∀ g : String, g ∈ (genre_counts subset).map Prod.fst ↔ g ∈ genreTokens subset) ∧
    (renderViews subset).genreTop = some ((genre_counts subset).take 10) ∧
    genre_counts [⟨"Movie", 2020, "Comedy, Drama", mkRat 4 1⟩,
        ⟨"TV Show", 2021, "Comedy", mkRat 5 1⟩]
      = [("Comedy", 2), ("Drama", 1)] := by
  have hperm := sortDescCounts_perm ((uniqueFirst (genreTokens subset)).map
    (fun g => (g, countTok g (genreTokens subset))))
  have hmapfst : ((uniqueFirst (genreTokens subset)).map
      (fun g => (g, countTok g (genreTokens subset)))).map Prod.fst
      = uniqueFirst (genreTokens subset) := by
    rw [List.map_map]
    exact List.map_id _
  have hpermfst := hperm.map Prod.fst
  rw [hmapfst] at hpermfst
  have hne : subset.isEmpty = false := by
    cases subset with
    | nil => exact absurd rfl hsub
    | cons a l => rfl
  refine ⟨sortDescCounts_sorted _, ?_, ?_, ?_, ?_, by decide⟩
  · intro p hp
    have hp' := hperm.mem_iff.mp hp
    rcases List.mem_map.mp hp' with ⟨g, _, rfl⟩
    rfl
  · exact hpermfst.nodup_iff.mpr (nodup_uniqueFirst _)
  · intro g
    unfold genre_counts
    rw [hpermfst.mem_iff, mem_uniqueFirst]
  · simp [renderViews, hne, genre_counts]

/-- Witness for `genre_counts_spec`: its quantifier-free conjuncts at the
spec's two-record subset, with the non-emptiness hypothesis discharged. -/
theorem genre_counts_spec_witness :
    (renderViews [⟨"Movie", 2020, "Comedy, Drama", mkRat 4 1⟩,
        ⟨"TV Show", 2021, "Comedy", mkRat 5 1⟩]).genreTop =
      some ((genre_counts [⟨"Movie", 2020, "Comedy, Drama", mkRat 4 1⟩,
        ⟨"TV Show", 2021, "Comedy", mkRat 5 1⟩]).take 10) ∧
    genre_counts [⟨"Movie", 2020, "Comedy, Drama", mkRat 4 1⟩,
        ⟨"TV Show", 2021, "Comedy", mkRat 5 1⟩]
      = [("Comedy", 2), ("Drama", 1)] :=
  ⟨(genre_counts_spec [⟨"Movie", 2020, "Comedy, Drama", mkRat 4 1⟩,
      ⟨"TV Show", 2021, "Comedy", mkRat 5 1⟩] (by decide)).2.2.2.2.1,
    (genre_counts_spec [⟨"Movie", 2020, "Comedy, Drama", mkRat 4 1⟩,
      ⟨"TV Show", 2021, "Comedy", mkRat 5 1⟩] (by decide)).2.2.2.2.2⟩

/-! ### Claim C9: the data loader -/

theorem coerceYears_eq_none_iff (rows : List RawRow) :
    coerceYears rows = none ↔ ∃ r ∈ rows, pyYearToInt r.yearRaw = none := by
  induction rows with
  | nil =>
    simp [coerceYears]
  | cons r rs ih =>
    rw [coerceYears]
    cases hy : pyYearToInt r.yearRaw with
    | none =>
      simp [hy]
    | some y =>
      cases hc : coerceYears rs with
      | none =>
        simp only [List.mem_cons]
        constructor
        · intro _
          rcases ih.mp hc with ⟨r', hr', hr'y⟩
          exact ⟨r', Or.inr hr', hr'y⟩
        · intro _
          trivial
      | some t =>
        simp only [List.mem_cons, reduceCtorEq]
        constructor
        · intro h
          exact absurd h (by simp)
        · rintro ⟨r', rfl | hr', hr'y⟩
          · rw [hy] at hr'y
            exact absurd hr'y (by simp)
          · exact absurd (ih.mpr ⟨r', hr', hr'y⟩) (by simp [hc])

theorem coerceYears_some_spec (rows : List RawRow) :
    ∀ t : List Record, coerceYears rows = some t →
      t.length = rows.length ∧
      ∀ i (h1 : i < t.length) (h2 : i < rows.length),
        pyYearToInt ((rows.get ⟨i, h2⟩).yearRaw) = some ((t.get ⟨i, h1⟩).year) := by
  induction rows with
  | nil =>
    intro t ht
    rw [coerceYears] at ht
    cases ht
    exact ⟨rfl, fun i h1 h2 => absurd h1 (Nat.not_lt_zero i)⟩
  | cons r rs ih =>
    intro t ht
    rw [coerceYears] at ht
    cases hy : pyYearToInt r.yearRaw with
    | none =>
      rw [hy] at ht
      exact absurd ht (by simp)
    | some y =>
      rw [hy] at ht
      cases hc : coerceYears rs with
      | none =>
        rw [hc] at ht
        exact absurd ht (by simp)
      | some t' =>
        rw [hc] at ht
        cases ht
        rcases ih t' hc with ⟨hlen, hget⟩
        refine ⟨by simp [hlen], ?_⟩
        intro i h1 h2
        cases i with
        | zero => exact hy
        | succ j =>
          exact hget j (Nat.lt_of_succ_lt_succ h1) (Nat.lt_of_succ_lt_succ h2)

/-- C9: the loader is total — the caller always receives a frame.  It emits
the user-visible error exactly when the read itself fails or some row's Year
cell cannot be coerced to an integer, and then returns the empty frame (the
whole load fails; no rows are silently dropped).  On success no error is
emitted, every raw row is kept (same count, same order), and every `year`
field is the integer coercion of the corresponding raw Year cell. -/
theorem load_data_total_and_fail_fast (src : Option (List RawRow)) :
    ((load_data src).2 = true ↔
      src = none ∨ ∃ rows, src = some rows ∧ ∃ r ∈ rows, pyYearToInt r.yearRaw = none) ∧
    ((load_data src).2 = true → (load_data src).1 = emptyFrame) ∧
    ((load_data src).2 = false →
      ∃ rows, src = some rows ∧ (load_data src).1.hasContentColumns = true ∧
        (load_data src).1.rows.length = rows.length ∧
        ∀ i (h1 : i < (load_data src).1.rows.length) (h2 : i < rows.length),
          pyYearToInt ((rows.get ⟨i, h2⟩).yearRaw)
            = some (((load_data src).1.rows.get ⟨i, h1⟩).year)) := by
  cases src with
  | none =>
    refine ⟨⟨fun _ => Or.inl rfl, fun _ => rfl⟩, fun _ => rfl, fun h => ?_⟩
    exact absurd h (by simp [load_data])
  | some rows =>
    cases hc : coerceYears rows with
    | none =>
      have hl : load_data (some rows) = (emptyFrame, true) := by
        simp [load_data, hc]
      rw [hl]
      refine ⟨⟨fun _ => ?_, fun _ => rfl⟩, fun _ => rfl, fun h => absurd h (by simp)⟩
      exact Or.inr ⟨rows, rfl, (coerceYears_eq_none_iff rows).mp hc⟩
    | some t =>
      have hl : load_data (some rows) = ({ hasContentColumns := true, rows := t }, false) := by
        simp [load_data, hc]
      rw [hl]
      refine ⟨⟨fun h => absurd h (by simp), ?_⟩, fun h => absurd h (by simp), fun _ => ?_⟩
      · rintro (h | ⟨rows', heq, r, hr, hry⟩)
        · exact absurd h (by simp)
        · cases heq
          exact absurd hc (by simp [(coerceYears_eq_none_iff rows).mpr ⟨r, hr, hry⟩])
      · rcases coerceYears_some_spec rows t hc with ⟨hlen, hget⟩
        exact ⟨rows, rfl, rfl, hlen, hget⟩

/-- Witness for `load_data_total_and_fail_fast`: a failed read returns the
empty frame (antecedent discharged concretely), and a source with a
non-coercible Year cell triggers the user-visible error. -/
theorem load_data_witness :
    (load_data none).1 = emptyFrame ∧
    (load_data (some [RawRow.mk "Movie" "20x0" "Comedy" (mkRat 4 1)])).2 = true :=
  ⟨(load_data_total_and_fail_fast none).2.1 rfl,
    (load_data_total_and_fail_fast
        (some [RawRow.mk "Movie" "20x0" "Comedy" (mkRat 4 1)])).1.mpr
      (Or.inr ⟨[RawRow.mk "Movie" "20x0" "Comedy" (mkRat 4 1)], rfl,
        RawRow.mk "Movie" "20x0" "Comedy" (mkRat 4 1),
        List.mem_cons_self _ _, by decide⟩)⟩

/-! ### Lemmas: decimal digit round-trips -/

theorem digitChar_spec : ∀ d < 10, isDigitChar (digitChar d) = true ∧
    digitVal (digitChar d) = d := by decide

theorem isDigitChar_not_special (c : Char) (h : isDigitChar c = true) :
    c ≠ ',' ∧ c ≠ '"' ∧ c ≠ '\n' ∧ c ≠ '\r' ∧ c ≠ '.' ∧ c ≠ '-' := by
  refine ⟨?_, ?_, ?_, ?_, ?_, ?_⟩ <;> (intro heq; subst heq; revert h; decide)

theorem parseDigitsVal_append (xs : List Char) (c : Char) :
    parseDigitsVal (xs ++ [c]) = 10 * parseDigitsVal xs + digitVal c := by
  rw [parseDigitsVal, List.foldl_append]
  rfl

theorem natToDigitsAux_spec : ∀ fuel n, n < fuel →
    (natToDigitsAux fuel n).all isDigitChar = true ∧
    natToDigitsAux fuel n ≠ [] ∧
    parseDigitsVal (natToDigitsAux fuel n) = n := by
  intro fuel
  induction fuel with
  | zero =>
    intro n hn
    exact absurd hn (Nat.not_lt_zero n)
  | succ fuel ih =>
    intro n hn
    rw [natToDigitsAux]
    by_cases h10 : n < 10
    · rw [if_pos h10]
      rcases digitChar_spec n h10 with ⟨hd, hv⟩
      refine ⟨by simp [hd], by simp, ?_⟩
      show parseDigitsVal [digitChar n] = n
      rw [show ([digitChar n] : List Char) = [] ++ [digitChar n] from rfl,
        parseDigitsVal_append]
      simp [parseDigitsVal, hv]
    · rw [if_neg h10]
      have hdivlt : n / 10 < fuel := by
        have h1 : n / 10 < n := Nat.div_lt_self (by omega) (by omega)
        omega
      rcases ih (n / 10) hdivlt with ⟨hall, hne, hval⟩
      rcases digitChar_spec (n % 10) (Nat.mod_lt n (by omega)) with ⟨hd, hv⟩
      refine ⟨?_, by simp, ?_⟩
      · rw [List.all_append, hall]
        simp [hd]
      · rw [parseDigitsVal_append, hval, hv]
        omega

theorem parseNatChars_natToDigits (n : Nat) :
    parseNatChars (natToDigits n) = some n := by
  rcases natToDigitsAux_spec (n + 1) n (Nat.lt_succ_self n) with ⟨hall, hne, hval⟩
  rw [natToDigits, parseNatChars]
  rw [if_pos]
  · rw [hval]
  · rw [hall]
    cases h : natToDigitsAux (n + 1) n with
    | nil => exact absurd h hne
    | cons c cs => simp

theorem natToDigits_all_digits (n : Nat) :
    (natToDigits n).all isDigitChar = true ∧ natToDigits n ≠ [] := by
  rcases natToDigitsAux_spec (n + 1) n (Nat.lt_succ_self n) with ⟨hall, hne, _⟩
  exact ⟨hall, hne⟩

theorem padDigits_spec : ∀ k n,
    (padDigits k n).all isDigitChar = true ∧
    (padDigits k n).length = k ∧
    parseDigitsVal (padDigits k n) = n % 10 ^ k := by
  intro k
  induction k with
  | zero =>
    intro n
    refine ⟨rfl, rfl, ?_⟩
    simp [padDigits, parseDigitsVal, Nat.mod_one]
  | succ k ih =>
    intro n
    rcases ih (n / 10) with ⟨hall, hlen, hval⟩
    rcases digitChar_spec (n % 10) (Nat.mod_lt n (by omega)) with ⟨hd, hv⟩
    rw [padDigits]
    refine ⟨?_, ?_, ?_⟩
    · rw [List.all_append, hall]
      simp [hd]
    · simp [hlen]
    · rw [parseDigitsVal_append, hval, hv]
      have hpow : (10 : Nat) ^ (k + 1) = 10 * 10 ^ k := by ring
      rw [hpow, Nat.mod_mul]
      omega

theorem natToDigits_head_digit (n : Nat) :
    ∃ c cs, natToDigits n = c :: cs ∧ isDigitChar c = true := by
  rcases natToDigits_all_digits n with ⟨hall, hne⟩
  cases h : natToDigits n with
  | nil => exact absurd h hne
  | cons c cs =>
    rw [h] at hall
    exact ⟨c, cs, rfl, List.all_eq_true.mp hall c (List.mem_cons_self c cs)⟩

theorem parseIntChars_intToChars (i : Int) :
    parseIntChars (intToChars i) = some i := by
  rw [intToChars]
  by_cases hneg : i < 0
  · rw [if_pos hneg, parseIntChars, if_pos rfl, parseNatChars_natToDigits]
    simp only [Option.map_some']
    congr 1
    omega
  · rw [if_neg hneg]
    rcases natToDigits_head_digit i.toNat with ⟨c, cs, hcons, hdig⟩
    rw [hcons, parseIntChars, if_neg (isDigitChar_not_special c hdig).2.2.2.2.2,
      ← hcons, parseNatChars_natToDigits]
    simp only [Option.map_some']
    congr 1
    omega

theorem splitAtDot_append (B : List Char) : ∀ A : List Char, (∀ c ∈ A, c ≠ '.') →
    splitAtDot (A ++ '.' :: B) = (A, some B) := by
  intro A
  induction A with
  | nil =>
    intro _
    rw [List.nil_append, splitAtDot, if_pos rfl]
  | cons a A' ih =>
    intro hA
    have ha : a ≠ '.' := hA a (List.mem_cons_self a A')
    rw [List.cons_append, splitAtDot, if_neg ha,
      ih (fun c hc => hA c (List.mem_cons_of_mem a hc))]

theorem parseRatChars_cons (c : Char) (cs : List Char) :
    parseRatChars (c :: cs) =
      if c = '-' then (parseRatPosChars cs).map Rat.neg
      else parseRatPosChars (c :: cs) := rfl

theorem parseNatChars_padDigits (k n : Nat) (hk : 0 < k) :
    parseNatChars (padDigits k n) = some (n % 10 ^ k) := by
  rcases padDigits_spec k n with ⟨hall, hlen, hval⟩
  have hne : (!(padDigits k n).isEmpty && (padDigits k n).all isDigitChar) = true := by
    rw [hall]
    cases h : padDigits k n with
    | nil =>
      rw [h] at hlen
      simp at hlen
      omega
    | cons c cs => simp
  rw [parseNatChars, if_pos hne, hval]

theorem mkRat_scaledNum (q : Rat) (hfd : finiteDecimal q) (hq : 0 ≤ q) :
    mkRat (scaledNum q : Int) (10 ^ q.den) = q := by
  have hnum : ((q.num.toNat : Int)) = q.num :=
    Int.toNat_of_nonneg (Rat.num_nonneg.mpr hq)
  rw [scaledNum]
  set k := 10 ^ q.den / q.den with hkdef
  have hk : q.den * k = 10 ^ q.den := Nat.mul_div_cancel' hfd
  have hknz : k ≠ 0 := by
    intro h0
    rw [h0, Nat.mul_zero] at hk
    exact absurd hk.symm (Nat.pos_iff_ne_zero.mp (Nat.pos_pow_of_pos q.den (by omega)))
  rw [show ((q.num.toNat * k : Nat) : Int) = ((k : Nat) : Int) * q.num from by
    push_cast [hnum]
    ring]
  rw [show (10 : Nat) ^ q.den = k * q.den from by
    rw [← hk]
    ring]
  rw [Rat.mkRat_mul_left hknz, Rat.mkRat_self]

theorem parseRatPos_roundtrip (q : Rat) (hfd : finiteDecimal q) (hq : 0 ≤ q) :
    parseRatPosChars (ratPosToChars q) = some q := by
  have hdpos : 0 < q.den := q.den_pos
  rcases natToDigits_all_digits (scaledNum q / 10 ^ q.den) with ⟨hipall, _⟩
  have hipdot : ∀ c ∈ natToDigits (scaledNum q / 10 ^ q.den), c ≠ '.' := by
    intro c hc
    exact (isDigitChar_not_special c (List.all_eq_true.mp hipall c hc)).2.2.2.2.1
  rcases padDigits_spec q.den (scaledNum q % 10 ^ q.den) with ⟨_, hflen, _⟩
  simp only [ratPosToChars, parseRatPosChars, splitAtDot_append _ _ hipdot,
    parseNatChars_natToDigits, parseNatChars_padDigits _ _ hdpos, hflen,
    Nat.mod_mod_of_dvd _ (dvd_refl _)]
  rw [show ((scaledNum q / 10 ^ q.den : Nat) : Int) * (10 : Int) ^ q.den
        + ((scaledNum q % 10 ^ q.den : Nat) : Int) = (scaledNum q : Int) from by
    exact_mod_cast Nat.div_add_mod' (scaledNum q) (10 ^ q.den)]
  rw [mkRat_scaledNum q hfd hq]

theorem ratToChars_roundtrip (q : Rat) (hfd : finiteDecimal q) :
    parseRatChars (ratToChars q) = some q := by
  rw [ratToChars]
  by_cases hneg : q < 0
  · rw [if_pos hneg]
    have hfd' : finiteDecimal (-q) := by
      rw [finiteDecimal, Rat.neg_den]
      exact hfd
    have hq' : 0 ≤ -q := neg_nonneg.mpr (le_of_lt hneg)
    rw [parseRatChars_cons, if_pos rfl, parseRatPos_roundtrip (-q) hfd' hq']
    rw [Option.map_some']
    congr 1
    show -(-q) = q
    exact neg_neg q
  · rw [if_neg hneg]
    push_neg at hneg
    rcases natToDigits_all_digits (scaledNum q / 10 ^ q.den) with ⟨hipall, hipne⟩
    have hform : ∃ c cs, ratPosToChars q = c :: cs ∧ isDigitChar c = true := by
      rw [ratPosToChars]
      cases h : natToDigits (scaledNum q / 10 ^ q.den) with
      | nil => exact absurd h hipne
      | cons c cs =>
        rw [h] at hipall
        exact ⟨c, cs ++ '.' :: padDigits q.den (scaledNum q % 10 ^ q.den),
          rfl, List.all_eq_true.mp hipall c (List.mem_cons_self c cs)⟩
    rcases hform with ⟨c, cs, hcons, hdig⟩
    rw [hcons, parseRatChars_cons, if_neg (isDigitChar_not_special c hdig).2.2.2.2.2,
      ← hcons]
    exact parseRatPos_roundtrip q hfd hneg

/-! ### Lemmas: CSV encode/parse round-trip -/

/-- The remainder starts with a field terminator. -/
def stopAt (rest : List Char) : Prop :=
  ∃ c0 cs, rest = c0 :: cs ∧ (c0 = ',' ∨ c0 = '\n')

theorem parseQuoted_quote_quote (rest : List Char) :
    parseQuoted ('"' :: '"' :: rest) =
      ('"' :: (parseQuoted rest).1, (parseQuoted rest).2) := rfl

theorem parseQuoted_quote_stop (c : Char) (rest : List Char) (h : c ≠ '"') :
    parseQuoted ('"' :: c :: rest) = ([], c :: rest) := by
  simp [parseQuoted, h]

theorem parseQuoted_other (c : Char) (rest : List Char) (h : c ≠ '"') :
    parseQuoted (c :: rest) =
      (c :: (parseQuoted rest).1, (parseQuoted rest).2) := by
  rw [parseQuoted.eq_def]
  simp [h]

theorem parseUnquoted_stop (c : Char) (rest : List Char) (h : c = ',' ∨ c = '\n') :
    parseUnquoted (c :: rest) = ([], c :: rest) := by
  rcases h with rfl | rfl <;> simp [parseUnquoted]

theorem parseUnquoted_go (c : Char) (rest : List Char) (h1 : c ≠ ',') (h2 : c ≠ '\n') :
    parseUnquoted (c :: rest) =
      (c :: (parseUnquoted rest).1, (parseUnquoted rest).2) := by
  simp [parseUnquoted, h1, h2]

theorem needsQuote_false_spec (f : List Char) (h : needsQuote f = false) :
    ∀ c ∈ f, c ≠ ',' ∧ c ≠ '"' ∧ c ≠ '\n' ∧ c ≠ '\r' := by
  intro c hc
  have h2 : (c == ',' || c == '"' || c == '\n' || c == '\r') = false := by
    by_contra hb
    have hb' : (c == ',' || c == '"' || c == '\n' || c == '\r') = true := by
      cases hvv : (c == ',' || c == '"' || c == '\n' || c == '\r') with
      | true => rfl
      | false => exact absurd hvv hb
    have hany : needsQuote f = true := by
      rw [needsQuote]
      exact List.any_eq_true.mpr ⟨c, hc, hb'⟩
    rw [hany] at h
    exact absurd h (by simp)
  simp only [Bool.or_eq_false_iff, beq_eq_false_iff_ne] at h2
  exact ⟨h2.1.1.1, h2.1.1.2, h2.1.2, h2.2⟩

theorem parseQuoted_escQuotes (rest : List Char)
    (hrest : ∀ c0 cs, rest = c0 :: cs → c0 ≠ '"') :
    ∀ f : List Char, parseQuoted (escQuotes f ++ '"' :: rest) = (f, rest) := by
  intro f
  induction f with
  | nil =>
    rw [escQuotes, List.nil_append]
    cases rest with
    | nil => rfl
    | cons c2 rest2 =>
      rw [parseQuoted_quote_stop c2 rest2 (hrest c2 rest2 rfl)]
  | cons a f' ih =>
    by_cases ha : a = '"'
    · subst ha
      rw [escQuotes, if_pos rfl, List.cons_append, List.cons_append,
        parseQuoted_quote_quote, ih]
    · rw [escQuotes, if_neg ha, List.cons_append, parseQuoted_other a _ ha, ih]

theorem parseUnquoted_clean (rest : List Char) (hstop : stopAt rest) :
    ∀ f : List Char, (∀ c ∈ f, c ≠ ',' ∧ c ≠ '\n') →
      parseUnquoted (f ++ rest) = (f, rest) := by
  intro f
  induction f with
  | nil =>
    intro _
    rcases hstop with ⟨c0, cs, rfl, hc0⟩
    rw [List.nil_append, parseUnquoted_stop c0 cs hc0]
  | cons a f' ih =>
    intro hf
    have ha := hf a (List.mem_cons_self a f')
    rw [List.cons_append, parseUnquoted_go a _ ha.1 ha.2,
      ih (fun c hc => hf c (List.mem_cons_of_mem a hc))]

theorem parseField_encodeField (f rest : List Char) (hstop : stopAt rest) :
    parseField (encodeField f ++ rest) = (f, rest) := by
  rcases hstop with ⟨c0, cs, hrest, hc0⟩
  have hc0q : c0 ≠ '"' := by
    rcases hc0 with rfl | rfl <;> decide
  cases hq : needsQuote f with
  | true =>
    rw [encodeField, if_pos hq]
    rw [show ('"' :: (escQuotes f ++ ['"'])) ++ rest
        = '"' :: (escQuotes f ++ '"' :: rest) from by simp]
    rw [parseField, if_pos rfl]
    exact parseQuoted_escQuotes rest
      (fun c' cs' h' => by
        rw [hrest] at h'
        cases h'
        exact hc0q) f
  | false =>
    rw [encodeField, if_neg (by simp [hq])]
    have hspec := needsQuote_false_spec f hq
    cases f with
    | nil =>
      rw [List.nil_append, hrest, parseField, if_neg hc0q,
        parseUnquoted_stop c0 cs hc0]
    | cons a f' =>
      have ha := hspec a (List.mem_cons_self a f')
      rw [List.cons_append, parseField, if_neg ha.2.1]
      rw [← List.cons_append]
      exact parseUnquoted_clean rest ⟨c0, cs, hrest, hc0⟩ (a :: f')
        (fun c hc => ⟨(hspec c hc).1, (hspec c hc).2.2.1⟩)

theorem encodeFields_length : ∀ fs : List (List Char), fs ≠ [] →
    fs.length ≤ (encodeFields fs).length + 1 := by
  intro fs
  induction fs with
  | nil => intro h; exact absurd rfl h
  | cons f fs' ih =>
    intro _
    cases fs' with
    | nil => simp
    | cons g fs'' =>
      have hih := ih (by simp)
      rw [show encodeFields (f :: g :: fs'')
          = encodeField f ++ ',' :: encodeFields (g :: fs'') from rfl]
      simp only [List.length_cons, List.length_append] at *
      omega

theorem encodeCsv_length : ∀ rows : List (List (List Char)),
    rows.length ≤ (encodeCsv rows).length := by
  intro rows
  induction rows with
  | nil => simp [encodeCsv]
  | cons r rs ih =>
    rw [show encodeCsv (r :: rs) = encodeFields r ++ '\n' :: encodeCsv rs from rfl]
    simp only [List.length_cons, List.length_append, List.length_cons]
    omega

theorem parseRecordCsv_encode : ∀ fs : List (List Char), fs ≠ [] →
    ∀ fuel rest, fs.length ≤ fuel →
      parseRecordCsv fuel (encodeFields fs ++ '\n' :: rest) = (fs, rest) := by
  intro fs
  induction fs with
  | nil => intro h; exact absurd rfl h
  | cons f fs' ih =>
    intro _ fuel rest hlen
    cases fuel with
    | zero => simp at hlen
    | succ fuel' =>
      cases fs' with
      | nil =>
        rw [show encodeFields [f] = encodeField f from rfl]
        rw [parseRecordCsv,
          parseField_encodeField f ('\n' :: rest) ⟨'\n', rest, rfl, Or.inr rfl⟩]
        simp
      | cons g fs'' =>
        rw [show encodeFields (f :: g :: fs'')
            = encodeField f ++ ',' :: encodeFields (g :: fs'') from rfl]
        rw [show (encodeField f ++ ',' :: encodeFields (g :: fs'')) ++ '\n' :: rest
            = encodeField f ++ ',' :: (encodeFields (g :: fs'') ++ '\n' :: rest) from by
          simp]
        rw [parseRecordCsv,
          parseField_encodeField f _ ⟨',', _, rfl, Or.inl rfl⟩]
        have hih := ih (by simp) fuel' rest (by
          simp only [List.length_cons] at hlen ⊢
          omega)
        simp [hih]

theorem parseCsvRows_succ (fuel : Nat) (c : Char) (rest : List Char) :
    parseCsvRows (fuel + 1) (c :: rest) =
      (parseRecordCsv ((c :: rest).length + 1) (c :: rest)).1 ::
        parseCsvRows fuel (parseRecordCsv ((c :: rest).length + 1) (c :: rest)).2 := rfl

theorem parseCsvRows_encode : ∀ rows : List (List (List Char)),
    (∀ r ∈ rows, r ≠ []) → ∀ fuel, rows.length ≤ fuel →
      parseCsvRows fuel (encodeCsv rows) = rows := by
  intro rows
  induction rows with
  | nil =>
    intro _ fuel _
    cases fuel <;> rfl
  | cons r rs ih =>
    intro hne fuel hlen
    cases fuel with
    | zero => simp at hlen
    | succ fuel' =>
      have hr : r ≠ [] := hne r (List.mem_cons_self r rs)
      have hfuel : r.length ≤ (encodeFields r ++ '\n' :: encodeCsv rs).length + 1 := by
        have h1 := encodeFields_length r hr
        simp only [List.length_append, List.length_cons]
        omega
      have hrec := parseRecordCsv_encode r hr
        ((encodeFields r ++ '\n' :: encodeCsv rs).length + 1) (encodeCsv rs) hfuel
      rw [show encodeCsv (r :: rs) = encodeFields r ++ '\n' :: encodeCsv rs from rfl]
      cases hsx : encodeFields r ++ '\n' :: encodeCsv rs with
      | nil => exact absurd hsx (by simp)
      | cons c cs =>
        rw [parseCsvRows_succ, ← hsx, hrec]
        rw [ih (fun x hx => hne x (List.mem_cons_of_mem r hx)) fuel' (by
          simp only [List.length_cons] at hlen
          omega)]

theorem parseCsvAll_encodeCsv (rows : List (List (List Char)))
    (h : ∀ r ∈ rows, r ≠ []) :
    parseCsvAll (encodeCsv rows) = rows := by
  rw [parseCsvAll]
  exact parseCsvRows_encode rows h ((encodeCsv rows).length + 1)
    (by have := encodeCsv_length rows; omega)

theorem ofCsvRow_four (t y g rt : List Char) :
    ofCsvRow [t, y, g, rt] =
      match parseIntChars y, parseRatChars rt with
      | some yy, some rr =>
        some { type := String.mk t, year := yy, genres := String.mk g, rating := rr }
      | _, _ => none := rfl

theorem ofCsvRow_toCsvRow (r : Record) (h : finiteDecimal r.rating) :
    ofCsvRow (toCsvRow r) = some r := by
  rw [toCsvRow, ofCsvRow_four, parseIntChars_intToChars, ratToChars_roundtrip _ h]

theorem ofCsvRows_map : ∀ subset : List Record,
    (∀ r ∈ subset, finiteDecimal r.rating) →
      ofCsvRows (subset.map toCsvRow) = some subset := by
  intro subset
  induction subset with
  | nil =>
    intro _
    rfl
  | cons r rs ih =>
    intro h
    rw [List.map_cons, ofCsvRows, ofCsvRow_toCsvRow r (h r (List.mem_cons_self r rs)),
      ih (fun x hx => h x (List.mem_cons_of_mem r hx))]

/-- C8: CSV export round-trip — serializing the filtered subset with
`convert_df` (UTF-8 text, header row, source column order, no index column)
and re-parsing the bytes yields exactly the subset: same row values, same row
order, same column order.  The hypothesis says every rating has a finite
decimal expansion, which holds of every Python float value. -/
theorem convert_df_roundtrip (subset : List Record)
    (h : ∀ r ∈ subset, finiteDecimal r.rating) :
    parse_csv (convert_df subset) = some subset := by
  have hne : ∀ r ∈ csvHeader :: subset.map toCsvRow, r ≠ [] := by
    intro r hr
    rcases List.mem_cons.mp hr with rfl | hr
    · simp [csvHeader]
    · rcases List.mem_map.mp hr with ⟨x, _, rfl⟩
      simp [toCsvRow]
  rw [convert_df, parse_csv, parseCsvAll_encodeCsv _ hne]
  simp [ofCsvRows_map subset h]

/-- Witness for `convert_df_roundtrip` on a concrete two-record subset whose
`Genre(s)` fields force quoting (embedded commas). -/
theorem convert_df_roundtrip_witness :
    parse_csv (convert_df [⟨"Movie", 2020, "Comedy, Drama", mkRat 9 2⟩,
        ⟨"TV Show", 1999, "Drama", mkRat 5 1⟩]) =
      some [⟨"Movie", 2020, "Comedy, Drama", mkRat 9 2⟩,
        ⟨"TV Show", 1999, "Drama", mkRat 5 1⟩] :=
  convert_df_roundtrip [⟨"Movie", 2020, "Comedy, Drama", mkRat 9 2⟩,
    ⟨"TV Show", 1999, "Drama", mkRat 5 1⟩] (by decide)
